import Mathlib

/-
Verification of the action-resolution core of the statechart interpreter
(src/packages/core/src/actions.ts).

The embedding mirrors the source file: pure builder functions become Lean
functions, the dynamic action objects become a tagged variant type whose
constructor plays the role of the runtime `type` tag, and the recursive
resolution driver `resolveActions` is given an explicit fuel parameter
because the recursion through Pure-generated action lists is not
structurally bounded (the source can recurse on lists produced by an
arbitrary callback).  Helpers that live in modules outside src/
(utils.ts: partition, flatten, updateContext, toGuard, evaluateGuard,
toSCXMLEvent; actionTypes.ts; environment.ts) are modelled from the
specification and marked as such in their doc comments.
-/

namespace XState

/-- A raw event object; the source carries a `type` string plus a payload,
only the type string is observed by this core. -/
structure EventObject where
  type : String
deriving Repr, DecidableEq

/-- Modelled from the spec: the SCXML event envelope produced by
toSCXMLEvent in utils.ts (not under src/): a wrapper around a raw event
carrying the event name, the raw event as payload, and an optional origin
reference. -/
structure SCXMLEvent where
  name : String
  data : EventObject
  origin : Option String
deriving Repr, DecidableEq

/-- An `Event` input as accepted by the builders: either a bare event type
string or a full event object. -/
inductive EvtInput where
  | str (s : String)
  | obj (e : EventObject)
deriving Repr, DecidableEq

/-- Modelled from the spec: toEventObject (utils.ts, not under src/) turns a
bare string into an event object with that type and passes objects through. -/
def toEventObject : EvtInput → EventObject
  | .str s => ⟨s⟩
  | .obj e => e

/-- Modelled from the spec: getEventType (utils.ts, not under src/) reads the
type of a raw event (the string itself, or the object field). -/
def getEventType : EvtInput → String
  | .str s => s
  | .obj e => e.type

/-- Modelled from the spec: toSCXMLEvent (utils.ts, not under src/) wraps a
raw event into an envelope whose name is the event type, whose data is the
event object, and with no origin. -/
def toSCXMLEvent (e : EvtInput) : SCXMLEvent :=
  ⟨(toEventObject e).type, toEventObject e, none⟩

namespace actionTypes

/-- Modelled from the spec: the action type tag constants defined in
actionTypes.ts, which is not under src/; the tags are the conventional
xstate type strings, only their distinctness matters here. -/
def raise : String := "xstate.raise"

def send : String := "xstate.send"

def log : String := "xstate.log"

def assign : String := "xstate.assign"

def choose : String := "xstate.choose"

def pureT : String := "xstate.pure"

def cancel : String := "xstate.cancel"

end actionTypes

namespace SpecialTargets

/-- The symbolic parent target used by sendParent and escalate. -/
def Parent : String := "#_parent"

/-- The symbolic internal target used by raise for non-string events. -/
def Internal : String := "#_internal"

end SpecialTargets

/-- The target field of a declared send action: a literal target reference or
a function of (context, event payload, meta) producing a target (possibly
undefined, as in the respond builder when the origin is absent). -/
inductive TargetField (C : Type) where
  | target (t : String)
  | fn (f : C → EventObject → SCXMLEvent → Option String)

/-- The delay field of a declared send action: a literal number of
milliseconds, a named delay string, or a delay expression function. -/
inductive DelayField (C : Type) where
  | num (n : Nat)
  | str (s : String)
  | fn (f : C → EventObject → SCXMLEvent → Nat)

/-- The event field of a declared send action after the builder ran: an event
object, or an event expression function together with its display name. -/
inductive SendEventField (C : Type) where
  | evt (e : EventObject)
  | fn (name : String) (f : C → EventObject → SCXMLEvent → EventObject)

/-- The event argument accepted by the send builder: a raw event (string or
object) or an event expression function with its display name. -/
inductive SendEventInput (C : Type) where
  | raw (e : EvtInput)
  | fn (name : String) (f : C → EventObject → SCXMLEvent → EventObject)

/-- Options accepted by the send builder (id, delay, to). -/
structure SendActionOptions (C : Type) where
  «to» : Option (TargetField C)
  delay : Option (DelayField C)
  id : Option String

/-- A declared send action as produced by the send builder.  In the source
the object also carries `type: actionTypes.send`; here the enclosing variant
tag plays that role. -/
structure SendAction (C : Type) where
  «to» : Option (TargetField C)
  event : SendEventField C
  delay : Option (DelayField C)
  id : String

/-- The identifier chosen by the send builder: the explicit option when
present, else the function name of an event expression, else the event type. -/
def sendId {C : Type} (event : SendEventInput C) (options : Option (SendActionOptions C)) : String :=
  match options with
  | some o =>
    match o.id with
    | some i => i
    | none =>
      match event with
      | .fn n _ => n
      | .raw e => getEventType e
  | none =>
    match event with
    | .fn n _ => n
    | .raw e => getEventType e

/-- The send builder (actions.ts lines 183-203): records target, event
(strings converted to event objects, functions kept), delay and identifier. -/
def send {C : Type} (event : SendEventInput C) (options : Option (SendActionOptions C)) : SendAction C :=
  { «to» :=
      match options with
      | some o => o.«to»
      | none => none
    event :=
      match event with
      | .fn n f => .fn n f
      | .raw e => .evt (toEventObject e)
    delay :=
      match options with
      | some o => o.delay
      | none => none
    id := sendId event options }

/-- The sendParent builder (actions.ts lines 257-269): send with the target
forced to the symbolic parent target, other options passed through. -/
def sendParent {C : Type} (event : SendEventInput C) (options : Option (SendActionOptions C)) : SendAction C :=
  send event
    (some
      { «to» := some (.target SpecialTargets.Parent)
        delay :=
          match options with
          | some o => o.delay
          | none => none
        id :=
          match options with
          | some o => o.id
          | none => none })

/-- The forwardTo builder (actions.ts lines 500-508): send of the event
expression forwarding the triggering event payload, with the target forced to
the supplied target. -/
def forwardTo {C : Type} (target : TargetField C) (options : Option (SendActionOptions C)) : SendAction C :=
  send (.fn "" (fun _ event _ => event))
    (some
      { «to» := some target
        delay :=
          match options with
          | some o => o.delay
          | none => none
        id :=
          match options with
          | some o => o.id
          | none => none })

/-- The respond builder (actions.ts lines 290-304): send with the target
given by a function reading the origin of the triggering event envelope at
resolve time. -/
def respond {C : Type} (event : SendEventInput C) (options : Option (SendActionOptions C)) : SendAction C :=
  send event
    (some
      { «to» := some (.fn (fun _ _ meta => meta.origin))
        delay :=
          match options with
          | some o => o.delay
          | none => none
        id :=
          match options with
          | some o => o.id
          | none => none })

/-- An entry of the named-delay registry owned by the statechart definition:
a literal number or a delay expression function. -/
inductive DelayRegEntry (C : Type) where
  | num (n : Nat)
  | fn (f : C → EventObject → SCXMLEvent → Nat)

/-- A resolved send action (actions.ts lines 242-248): the original fields
with the target, event (both envelope and raw payload) and delay replaced by
their concretely computed values. -/
structure SendActionObject (C : Type) where
  type : String
  id : String
  «to» : Option String
  event : EventObject
  _event : SCXMLEvent
  delay : Option Nat

/-- resolveSend (actions.ts lines 205-249): materialize the event (calling an
event expression with context, event payload and meta), resolve the delay
(literal passed through; named string looked up in the delay registry, a
function entry called, a missing entry giving no delay; a function delay
called), and resolve the target (function called, literal passed through). -/
def resolveSend {C : Type} (action : SendAction C) (ctx : C) (_event : SCXMLEvent)
    (delaysMap : String → Option (DelayRegEntry C)) : SendActionObject C :=
  let resolvedEvent : SCXMLEvent :=
    match action.event with
    | .fn _ f => toSCXMLEvent (.obj (f ctx _event.data _event))
    | .evt e => toSCXMLEvent (.obj e)
  let resolvedDelay : Option Nat :=
    match action.delay with
    | some (.str s) =>
      match delaysMap s with
      | some (.fn f) => some (f ctx _event.data _event)
      | some (.num n) => some n
      | none => none
    | some (.fn f) => some (f ctx _event.data _event)
    | some (.num n) => some n
    | none => none
  let resolvedTarget : Option String :=
    match action.«to» with
    | some (.fn f) => f ctx _event.data _event
    | some (.target t) => some t
    | none => none
  { type := actionTypes.send
    id := action.id
    «to» := resolvedTarget
    event := resolvedEvent.data
    _event := resolvedEvent
    delay := resolvedDelay }

/-- The diagnostic emitted by resolveActions after resolving a send
(actions.ts lines 593-601): outside production builds, when the declared
delay was a named string and the resolved delay is not a number, a warning
naming the missing delay and the machine id is produced; it never alters the
resolved action. -/
def sendDelayWarning {C : Type} (isProduction : Bool) (machineId : String)
    (sendAction : SendAction C) (resolvedSendAction : SendActionObject C) : Option String :=
  if isProduction then none
  else
    match sendAction.delay, resolvedSendAction.delay with
    | some (.str s), none =>
      some ("No delay reference for delay expression " ++ s ++ " was found on machine " ++ machineId)
    | _, _ => none

/-- The expression field of a declared log action: a string passed through
verbatim, or an expression function of (context, event payload, meta).  The
computed log value is modelled as a string. -/
inductive LogExprField (C : Type) where
  | str (s : String)
  | fn (f : C → EventObject → SCXMLEvent → String)

/-- A declared log action (label and expression); the runtime `type` tag is
played by the enclosing variant. -/
structure LogAction (C : Type) where
  label : Option String
  expr : LogExprField C

/-- A resolved log action (actions.ts lines 333-345): the original fields
plus the computed value. -/
structure LogActionObject (C : Type) where
  type : String
  label : Option String
  expr : LogExprField C
  value : String

/-- resolveLog (actions.ts lines 333-345): a string expression is the value
verbatim, otherwise the expression function is called with the context, the
event payload and the meta object. -/
def resolveLog {C : Type} (action : LogAction C) (ctx : C) (_event : SCXMLEvent) :
    LogActionObject C :=
  { type := actionTypes.log
    label := action.label
    expr := action.expr
    value :=
      match action.expr with
      | .str s => s
      | .fn f => f ctx _event.data _event }

/-- A resolved raise action (actions.ts lines 164-171): the raise tag plus
the raised event wrapped into an envelope. -/
structure RaiseActionObject where
  type : String
  _event : SCXMLEvent

/-- resolveRaise (actions.ts lines 164-171). -/
def resolveRaise (event : EvtInput) : RaiseActionObject :=
  ⟨actionTypes.raise, toSCXMLEvent event⟩

/-- A guard reference attached to a Choose branch: a name to be looked up in
the guard registry of the definition, or an inline predicate over (context,
event payload, current state). -/
inductive Cond (C S : Type) where
  | name (s : String)
  | pred (f : C → EventObject → Option S → Bool)

mutual

/-- A canonical action object, the element type of the list handed to
resolveActions.  The constructor encodes the runtime `type` tag the source
dispatches on; every object the builders produce carries a `type` field that
agrees with its shape, and `typeOf` recovers the tag string.  Choose branches
and Pure generators carry raw (not yet canonicalized) actions, exactly as in
the source, where they are canonicalized at resolution time. -/
inductive ActionObject (C S X : Type) where
  | raiseA (event : EvtInput)
  | sendA (a : SendAction C)
  | logA (a : LogAction C)
  | assignA (assignment : C → SCXMLEvent → Option S → C)
  | chooseA (conds : List (Option (Cond C S) × List (RawAction C S X)))
  | pureA (get : C → EventObject → Option (List (RawAction C S X)))
  | custom (t : String) (fields : List (String × Nat)) (exec : Option X)

/-- A user-supplied action before canonicalization: an executable function
(with its display name), a string identifier, or an action object. -/
inductive RawAction (C S X : Type) where
  | fnAct (name : String) (x : X)
  | strAct (s : String)
  | objAct (a : ActionObject C S X)

end

/-- The runtime `type` tag of an action object. -/
def typeOf {C S X : Type} : ActionObject C S X → String
  | .raiseA _ => actionTypes.raise
  | .sendA _ => actionTypes.send
  | .logA _ => actionTypes.log
  | .assignA _ => actionTypes.assign
  | .chooseA _ => actionTypes.choose
  | .pureA _ => actionTypes.pureT
  | .custom t _ _ => t

/-- An entry of the action registry owned by the statechart definition: an
executable, or a full action object. -/
inductive ActionRegEntry (C S X : Type) where
  | execE (x : X)
  | objE (a : ActionObject C S X)

/-- The statechart definition as seen by this core: an identifier (used only
in diagnostics) and the three registries options.actions, options.guards and
options.delays. -/
structure Machine (C S X : Type) where
  id : String
  actions : String → Option (ActionRegEntry C S X)
  guards : String → Option (C → EventObject → Option S → Bool)
  delays : String → Option (DelayRegEntry C)

/-- Attaching a registered executable to an object action, the
`{...action, exec: registered}` case of toActionObject (line 93-97).  Only
custom actions have an exec slot in the typed model; on a builtin-shaped
action the attached executable is irrelevant to resolution (which dispatches
on the tag), so the action is kept unchanged. -/
def attachExec {C S X : Type} : ActionObject C S X → X → ActionObject C S X
  | .custom t fs _, x => .custom t fs (some x)
  | a, _ => a

/-- Merging the fields of two custom actions, the later list overriding the
earlier, mirroring a JavaScript object spread. -/
def mergeFields (a b : List (String × Nat)) : List (String × Nat) :=
  a.filter (fun p => (b.find? (fun q => q.1 = p.1)).isNone) ++ b

/-- The `{...registeredAction, ...action, type: registeredAction.type}` merge
of toActionObject (lines 98-103).  For a pair of custom actions the merge is
exact: the action fields override the registered fields and the type is
forced to the registered type.  When the registered entry is a builtin-shaped
object the kind-specific payloads of the two objects cannot coexist in the
typed world; the merge collapses to the registered entry, whose type tag (the
one that drives all resolution) is the type of the merge in the source as
well. -/
def mergeRegistered {C S X : Type} (r a : ActionObject C S X) : ActionObject C S X :=
  match r, a with
  | .custom rt rfs rx, .custom _ afs ax =>
    .custom rt (mergeFields rfs afs)
      (match ax with
       | some x => some x
       | none => rx)
  | _, _ => r

/-- toActionObject (actions.ts lines 61-116) on the typed model: a function
becomes `{type: name, exec}`; a string is looked up in the registry (absent
gives a bare tagged object, an executable entry is attached as exec, an
object entry is used verbatim); an object is looked up by its type and merged
with the entry as in the source. -/
def toActionObject {C S X : Type} (actionMap : String → Option (ActionRegEntry C S X)) :
    RawAction C S X → ActionObject C S X
  | .fnAct name x => .custom name [] (some x)
  | .strAct s =>
    match actionMap s with
    | none => .custom s [] none
    | some (.execE x) => .custom s [] (some x)
    | some (.objE a) => a
  | .objAct a =>
    match actionMap (typeOf a) with
    | some (.execE x) => attachExec a x
    | some (.objE r) => mergeRegistered r a
    | none => a

/-- toActionObjects (actions.ts lines 118-132): canonicalize a list of
declared actions. -/
def toActionObjects {C S X : Type} (actionMap : String → Option (ActionRegEntry C S X))
    (actions : List (RawAction C S X)) : List (ActionObject C S X) :=
  actions.map (toActionObject actionMap)

/-- Modelled from the spec: updateContext (utils.ts, not under src/) folds
the assign actions in order; each assigner produces the next context from the
context as updated by the prior assigns in the same fold, the current event
and the current state.  Whole-context assigners and property-map assigners
are both represented by their overall effect on the context. -/
def updateContext {C S : Type} (currentContext : C) (_event : SCXMLEvent)
    (assignments : List (C → SCXMLEvent → Option S → C)) (currentState : Option S) : C :=
  assignments.foldl (fun acc f => f acc _event currentState) currentContext

/-- The assigner carried by an assign action, used to feed updateContext
with the assignment functions of the partitioned assign actions. -/
def assignmentOf {C S X : Type} : ActionObject C S X → Option (C → SCXMLEvent → Option S → C)
  | .assignA f => some f
  | _ => none

/-- Modelled from the spec: the composition of toGuard and evaluateGuard
(utils.ts, not under src/) used by the Choose case (actions.ts lines
616-628).  An absent guard is always satisfied; a named guard is looked up
in the guard registry of the definition and an unregistered name is treated
as satisfied (the documented permissive default); otherwise the predicate is
evaluated against the context, the event payload and the current state. -/
def evalGuardRef {C S X : Type} (machine : Machine C S X) (cond : Option (Cond C S))
    (ctx : C) (_event : SCXMLEvent) (currentState : Option S) : Bool :=
  match cond with
  | none => true
  | some (.name s) =>
    match machine.guards s with
    | none => true
    | some p => p ctx _event.data currentState
  | some (.pred p) => p ctx _event.data currentState

/-- A fully resolved action, the element type of the output list of
resolveActions; in the source the output array mixes these shapes. -/
inductive ResolvedAction (C S X : Type) where
  | raiseR (a : RaiseActionObject)
  | sendR (a : SendActionObject C)
  | logR (a : LogActionObject C)
  | other (a : ActionObject C S X)

/-- The runtime `type` tag of a resolved action. -/
def resolvedTypeOf {C S X : Type} : ResolvedAction C S X → String
  | .raiseR a => a.type
  | .sendR a => a.type
  | .logR a => a.type
  | .other a => typeOf a

/-- One arm of the dispatch loop of resolveActions (the switch at actions.ts
lines 577-665), resolving a single non-assign action against the current
threaded context.  `recurse` is the recursive invocation of the driver used
by the Choose and Pure cases; it returns the spliced resolved list together
with the replaced context.  Raise, send and log thread the context through
unchanged; Choose selects the first branch whose guard is satisfied and
recurses on its canonicalized actions (no matching branch contributes
nothing); Pure calls its generator and recurses on the canonicalized result
(an absent result contributes nothing); everything else is canonicalized
against the action registry. -/
def resolveOne {C S X : Type} (machine : Machine C S X) (currentState : Option S)
    (_event : SCXMLEvent)
    (recurse : C → List (ActionObject C S X) → Option (List (ResolvedAction C S X) × C))
    (ctx : C) (actionObject : ActionObject C S X) :
    Option (List (ResolvedAction C S X) × C) :=
  match actionObject with
  | .raiseA ev => some ([.raiseR (resolveRaise ev)], ctx)
  | .sendA sendAction =>
    some ([.sendR (resolveSend sendAction ctx _event machine.delays)], ctx)
  | .logA logAction => some ([.logR (resolveLog logAction ctx _event)], ctx)
  | .chooseA conds =>
    match conds.find? (fun condition => evalGuardRef machine condition.1 ctx _event currentState) with
    | none => some ([], ctx)
    | some condition => recurse ctx (toActionObjects machine.actions condition.2)
  | .pureA get =>
    match get ctx _event.data with
    | none => some ([], ctx)
    | some matchedActions => recurse ctx (toActionObjects machine.actions matchedActions)
  | a => some ([.other (toActionObject machine.actions (.objAct a))], ctx)

/-- The threaded loop over the non-assign actions: each action contributes a
(possibly empty) resolved list and a possibly replaced context, the
contributions are flattened in order and the final context is returned.
This is the `flatten(otherActions.map(...))` of the source together with the
mutable `updatedContext` variable, made explicit as an accumulator. -/
def resolveList {C S X : Type}
    (step : C → ActionObject C S X → Option (List (ResolvedAction C S X) × C)) :
    C → List (ActionObject C S X) → Option (List (ResolvedAction C S X) × C)
  | ctx, [] => some ([], ctx)
  | ctx, a :: rest =>
    match step ctx a with
    | none => none
    | some (out₁, ctx₁) =>
      match resolveList step ctx₁ rest with
      | none => none
      | some (out₂, ctx₂) => some (out₁ ++ out₂, ctx₂)

/-- resolveActions (actions.ts lines 554-669): partition the declared list
into assign actions and the rest by the runtime type tag (partition from
utils.ts, not under src/, is order preserving per the spec); fold the assign
actions into the context once when any are present; then resolve the other
actions in order against the threaded context.  The fuel bounds the recursion
depth through Choose and Pure branches (the source recursion has no such
bound and can diverge on self-generating Pure actions); a run that exhausts
the fuel returns none, and every terminating run of the source is reproduced
with any sufficiently large fuel. -/
def resolveActions {C S X : Type} :
    Nat → Machine C S X → Option S → C → SCXMLEvent →
    List (ActionObject C S X) → Option (List (ResolvedAction C S X) × C)
  | 0, _, _, _, _, _ => none
  | Nat.succ fuel, machine, currentState, currentContext, _event, actions =>
    let parts := actions.partition (fun a => typeOf a == actionTypes.assign)
    let updatedContext :=
      if parts.1.isEmpty then currentContext
      else updateContext currentContext _event (parts.1.filterMap assignmentOf) currentState
    resolveList
      (resolveOne machine currentState _event
        (fun c acts => resolveActions fuel machine currentState c _event acts))
      updatedContext parts.2

namespace JsModel

/-- A property value of a dynamic action object: a string, a number, an
executable, or the undefined value. -/
inductive PropVal (X : Type) where
  | str (s : String)
  | num (n : Int)
  | exec (x : X)
  | undef

/-- A dynamic JavaScript object as manipulated by toActionObject: an
allocation identity (two objects are the same object exactly when their oid
agrees), the enumerable own properties as a partial map from keys to values,
and whether the non-enumerable own toString property installed by
Object.defineProperty is present.  A property spread copies the property map
but never the non-enumerable toString. -/
structure JsObj (X : Type) where
  oid : Nat
  props : String → Option (PropVal X)
  hasToString : Bool

/-- Reading a property. -/
def getProp {X : Type} (o : JsObj X) (k : String) : Option (PropVal X) :=
  o.props k

/-- Setting one property on a property map. -/
def setProp {X : Type} (props : String → Option (PropVal X)) (k : String) (v : PropVal X) :
    String → Option (PropVal X) :=
  fun k' => if k' = k then some v else props k'

/-- The `{...a, ...b}` spread of two property maps: properties of b override
properties of a. -/
def mergeProps {X : Type} (a b : String → Option (PropVal X)) :
    String → Option (PropVal X) :=
  fun k =>
    match b k with
    | some v => some v
    | none => a k

/-- The Object.defineProperty call at actions.ts lines 109-113: install the
non-enumerable toString own property on the object in place. -/
def defineToString {X : Type} (o : JsObj X) : JsObj X :=
  { o with hasToString := true }

/-- An entry of the action registry in the dynamic model: an executable or a
registered action object. -/
inductive JsRegEntry (X : Type) where
  | execE (x : X)
  | objE (o : JsObj X)

/-- A user-supplied action in the dynamic model: a function (with display
name), a string, or an object. -/
inductive JsAction (X : Type) where
  | fnA (name : String) (x : X)
  | strA (s : String)
  | objA (o : JsObj X)

/-- The outcome of a toActionObject call in the dynamic model: the returned
object, and the state of the input object after the call (none when the input
was not an object).  The source mutates the input only when it returns it
directly (the object input with no registry entry), in which case the
returned object and the input after the call are the same object. -/
structure ToActionResult (X : Type) where
  result : JsObj X
  inputAfter : Option (JsObj X)

/-- toActionObject (actions.ts lines 61-116) on the dynamic object model.
`fresh` is the allocation identity handed to any newly constructed object.
A function input allocates `{type: name, exec}`; a string input allocates a
bare or exec-carrying object unless the registry entry is itself an object,
which is returned directly; an object input is looked up by its type
property: an executable entry allocates `{...action, exec: registered}`, an
object entry allocates `{...registered, ...action, type: registered.type}`,
and no entry returns the input object itself.  Whatever object is about to be
returned receives the non-enumerable toString property in place. -/
def toActionObject {X : Type} (fresh : Nat) (actionMap : String → Option (JsRegEntry X)) :
    JsAction X → ToActionResult X
  | .fnA name x =>
    ⟨defineToString ⟨fresh, setProp (setProp (fun _ => none) "type" (.str name)) "exec" (.exec x), false⟩, none⟩
  | .strA s =>
    match actionMap s with
    | none => ⟨defineToString ⟨fresh, setProp (fun _ => none) "type" (.str s), false⟩, none⟩
    | some (.execE x) =>
      ⟨defineToString ⟨fresh, setProp (setProp (fun _ => none) "type" (.str s)) "exec" (.exec x), false⟩, none⟩
    | some (.objE r) => ⟨defineToString r, none⟩
  | .objA a =>
    match
      (match getProp a "type" with
       | some (.str t) => actionMap t
       | _ => none) with
    | some (.execE x) =>
      ⟨defineToString ⟨fresh, setProp a.props "exec" (.exec x), false⟩, some a⟩
    | some (.objE r) =>
      ⟨defineToString
        ⟨fresh,
          setProp (mergeProps r.props a.props) "type" ((getProp r "type").getD .undef),
          false⟩,
        some a⟩
    | none => ⟨defineToString a, some (defineToString a)⟩

end JsModel

/-! ### Observations and concrete fixtures -/

/-- The values of the resolved log actions of an output list, in order. -/
def logValues {C S X : Type} : List (ResolvedAction C S X) → List String
  | [] => []
  | .logR la :: rest => la.value :: logValues rest
  | _ :: rest => logValues rest

/-- Whether an action is a Choose or a Pure action. -/
def isChooseOrPure {C S X : Type} : ActionObject C S X → Bool
  | .chooseA _ => true
  | .pureA _ => true
  | _ => false

/-- A concrete statechart definition over a numeric context used to exercise
the resolution driver: one guard (isEven) and one named delay (LONG). -/
def testMachine : Machine Nat Unit Unit :=
  { id := "m1"
    actions := fun _ => none
    guards := fun s => if s = "isEven" then some (fun c _ _ => c % 2 == 0) else none
    delays := fun s => if s = "LONG" then some (.num 1000) else none }

/-- A concrete triggering event envelope with an origin. -/
def testEvent : SCXMLEvent := ⟨"PING", ⟨"PING"⟩, some "sender1"⟩

/-! ### General lemmas about the resolution loop -/

/-- The threaded loop is a homomorphism for list concatenation: resolving a
concatenated list resolves the first part, threads its final context into the
second part, and concatenates the outputs in order. -/
theorem resolveList_append {C S X : Type}
    (step : C → ActionObject C S X → Option (List (ResolvedAction C S X) × C)) :
    ∀ (L₁ L₂ : List (ActionObject C S X)) (c : C),
      resolveList step c (L₁ ++ L₂) =
        match resolveList step c L₁ with
        | none => none
        | some (out₁, c₁) =>
          match resolveList step c₁ L₂ with
          | none => none
          | some (out₂, c₂) => some (out₁ ++ out₂, c₂) := by
  intro L₁
  induction L₁ with
  | nil =>
    intro L₂ c
    simp only [List.nil_append, resolveList]
    cases resolveList step c L₂ with
    | none => rfl
    | some p => rfl
  | cons a rest ih =>
    intro L₂ c
    simp only [List.cons_append, resolveList, List.append_eq]
    cases h₁ : step c a with
    | none => rfl
    | some p =>
      obtain ⟨out₁, c₁⟩ := p
      dsimp only
      rw [ih L₂ c₁]
      cases h₂ : resolveList step c₁ rest with
      | none => rfl
      | some q =>
        obtain ⟨out₂, c₂⟩ := q
        dsimp only
        cases resolveList step c₂ L₂ with
        | none => rfl
        | some r =>
          obtain ⟨out₃, c₃⟩ := r
          simp [List.append_assoc]

/-- Every element of the output of the threaded loop comes from the step
output of some action of the list: a property holding of every step output
holds of every element of the loop output. -/
theorem resolveList_mem {C S X : Type} {P : ResolvedAction C S X → Prop}
    (step : C → ActionObject C S X → Option (List (ResolvedAction C S X) × C)) :
    ∀ (L : List (ActionObject C S X)) (c : C) (out : List (ResolvedAction C S X)) (c' : C),
      (∀ c₀ a, a ∈ L → ∀ out₀ c₁, step c₀ a = some (out₀, c₁) → ∀ r ∈ out₀, P r) →
      resolveList step c L = some (out, c') → ∀ r ∈ out, P r := by
  intro L
  induction L with
  | nil =>
    intro c out c' _ h r hr
    simp only [resolveList, Option.some.injEq, Prod.mk.injEq] at h
    rw [← h.1] at hr
    exact absurd hr (List.not_mem_nil r)
  | cons a rest ih =>
    intro c out c' hstep h r hr
    simp only [resolveList] at h
    cases h₁ : step c a with
    | none =>
      simp only [h₁] at h
      exact Option.noConfusion h
    | some p =>
      obtain ⟨out₁, c₁⟩ := p
      simp only [h₁] at h
      cases h₂ : resolveList step c₁ rest with
      | none =>
        simp only [h₂] at h
        exact Option.noConfusion h
      | some q =>
        obtain ⟨out₂, c₂⟩ := q
        simp only [h₂, Option.some.injEq, Prod.mk.injEq] at h
        rw [← h.1] at hr
        rcases List.mem_append.mp hr with hmem | hmem
        · exact hstep c a (List.mem_cons_self a rest) out₁ c₁ h₁ r hmem
        · exact ih c₁ out₂ c₂
            (fun c₀ b hb => hstep c₀ b (List.mem_cons_of_mem a hb)) h₂ r hmem

/-- When every action of the list leaves the threaded context unchanged by
its step, the loop succeeds and returns the context it started from. -/
theorem resolveList_ctx {C S X : Type}
    (step : C → ActionObject C S X → Option (List (ResolvedAction C S X) × C)) :
    ∀ (L : List (ActionObject C S X)) (c : C),
      (∀ c₀ a, a ∈ L → ∃ out₀, step c₀ a = some (out₀, c₀)) →
      ∃ out, resolveList step c L = some (out, c) := by
  intro L
  induction L with
  | nil => intro c _; exact ⟨[], rfl⟩
  | cons a rest ih =>
    intro c hstep
    obtain ⟨out₁, h₁⟩ := hstep c a (List.mem_cons_self a rest)
    obtain ⟨out₂, h₂⟩ := ih c (fun c₀ b hb => hstep c₀ b (List.mem_cons_of_mem a hb))
    exact ⟨out₁ ++ out₂, by simp [resolveList, h₁, h₂]⟩

/-- Unfolding one level of the driver: a call with positive fuel partitions
the list into the assign actions and the rest (both filters of the input,
preserving relative order), folds the assign actions into the context exactly
when some are present, and runs the threaded loop over the non-assign
actions. -/
theorem resolveActions_unfold {C S X : Type} (fuel : Nat) (machine : Machine C S X)
    (currentState : Option S) (c : C) (_event : SCXMLEvent)
    (L : List (ActionObject C S X)) :
    resolveActions (fuel + 1) machine currentState c _event L =
      resolveList
        (resolveOne machine currentState _event
          (fun c₀ acts => resolveActions fuel machine currentState c₀ _event acts))
        (if (L.filter (fun a => typeOf a == actionTypes.assign)).isEmpty then c
         else updateContext c _event
           ((L.filter (fun a => typeOf a == actionTypes.assign)).filterMap assignmentOf)
           currentState)
        (L.filter (fun a => !(typeOf a == actionTypes.assign))) := by
  simp only [resolveActions, List.partition_eq_filter_filter]
  rfl

/-- Filtering with a predicate fixes its own filter and annihilates the
filter of the negation. -/
theorem filter_filter_not {α : Type} (p : α → Bool) (L : List α) :
    (L.filter p ++ L.filter (fun a => !p a)).filter p = L.filter p ∧
    (L.filter p ++ L.filter (fun a => !p a)).filter (fun a => !p a) =
      L.filter (fun a => !p a) := by
  have h1 : (L.filter p).filter p = L.filter p :=
    List.filter_eq_self.mpr (fun a ha => (List.mem_filter.mp ha).2)
  have h2 : (L.filter (fun a => !p a)).filter p = [] :=
    List.filter_eq_nil_iff.mpr (fun a ha h => by
      have hb := (List.mem_filter.mp ha).2
      rw [h] at hb
      simp at hb)
  have h3 : (L.filter p).filter (fun a => !p a) = [] :=
    List.filter_eq_nil_iff.mpr (fun a ha h => by
      have hb := (List.mem_filter.mp ha).2
      rw [hb] at h
      simp at h)
  have h4 : (L.filter (fun a => !p a)).filter (fun a => !p a) =
      L.filter (fun a => !p a) :=
    List.filter_eq_self.mpr (fun a ha => (List.mem_filter.mp ha).2)
  constructor
  · rw [List.filter_append, h1, h2, List.append_nil]
  · rw [List.filter_append, h3, h4, List.nil_append]

/-- Attaching an executable never changes the type tag. -/
theorem typeOf_attachExec {C S X : Type} (a : ActionObject C S X) (x : X) :
    typeOf (attachExec a x) = typeOf a := by
  cases a <;> rfl

/-- The type of a registry merge is the type of the registered entry. -/
theorem typeOf_mergeRegistered {C S X : Type} (r a : ActionObject C S X) :
    typeOf (mergeRegistered r a) = typeOf r := by
  cases r <;> cases a <;> rfl

/-! ### Claim theorems -/

/-- C1 (amended): resolution is invariant under moving all top-level assign
actions of a declared list to the front — the assigns take effect before
every non-assign sibling regardless of their interleaved position — and when
the list contains no top-level assign action the non-assign actions are
resolved by the threaded loop starting from the input context unchanged (the
loop may still replace the context at Choose and Pure entries, so a sibling
after such an entry sees that entry's returned context). -/
theorem c1_assign_before_siblings {C S X : Type} :
    (∀ (fuel : Nat) (machine : Machine C S X) (currentState : Option S) (c : C)
       (_event : SCXMLEvent) (L : List (ActionObject C S X)),
       resolveActions fuel machine currentState c _event L =
         resolveActions fuel machine currentState c _event
           (L.filter (fun a => typeOf a == actionTypes.assign) ++
            L.filter (fun a => !(typeOf a == actionTypes.assign)))) ∧
    (∀ (fuel : Nat) (machine : Machine C S X) (currentState : Option S) (c : C)
       (_event : SCXMLEvent) (L : List (ActionObject C S X)),
       (L.filter (fun a => typeOf a == actionTypes.assign)).isEmpty = true →
       resolveActions (fuel + 1) machine currentState c _event L =
         resolveList
           (resolveOne machine currentState _event
             (fun c₀ acts => resolveActions fuel machine currentState c₀ _event acts))
           c (L.filter (fun a => !(typeOf a == actionTypes.assign)))) := by
  constructor
  · intro fuel machine currentState c _event L
    cases fuel with
    | zero => rfl
    | succ f =>
      rw [resolveActions_unfold, resolveActions_unfold]
      rw [(filter_filter_not (fun a => typeOf a == actionTypes.assign) L).1]
      rw [(filter_filter_not (fun a => typeOf a == actionTypes.assign) L).2]
  · intro fuel machine currentState c _event L h
    rw [resolveActions_unfold, h]
    simp

/-- Witness for C1: a list with an interleaved assign resolves exactly as the
assign-first rearrangement, and an assign-free list starts the loop from the
input context. -/
theorem c1_assign_before_siblings_witness :
    resolveActions 2 testMachine none 1 testEvent
      [.logA ⟨none, .fn (fun c _ _ => toString c)⟩, .assignA (fun c _ _ => c + 1)] =
      resolveActions 2 testMachine none 1 testEvent
        (([.logA ⟨none, .fn (fun c _ _ => toString c)⟩,
           .assignA (fun c _ _ => c + 1)] : List (ActionObject Nat Unit Unit)).filter
            (fun a => typeOf a == actionTypes.assign) ++
         ([.logA ⟨none, .fn (fun c _ _ => toString c)⟩,
           .assignA (fun c _ _ => c + 1)] : List (ActionObject Nat Unit Unit)).filter
            (fun a => !(typeOf a == actionTypes.assign))) ∧
    resolveActions 1 testMachine none 1 testEvent
      [.raiseA (.str "GO")] =
      resolveList
        (resolveOne testMachine none testEvent
          (fun c₀ acts => resolveActions 0 testMachine none c₀ testEvent acts))
        1 (([.raiseA (.str "GO")] : List (ActionObject Nat Unit Unit)).filter
            (fun a => !(typeOf a == actionTypes.assign))) :=
  ⟨c1_assign_before_siblings.1 2 testMachine none 1 testEvent _,
   c1_assign_before_siblings.2 0 testMachine none 1 testEvent _ rfl⟩

/-- The action list of the C1 counterexample: a Pure action generating one
assign, followed by a log of the context.  It contains no top-level assign,
yet the log value reflects the context updated by the Pure branch. -/
def c1List : List (ActionObject Nat Unit Unit) :=
  [.pureA (fun _ _ => some [.objAct (.assignA (fun c _ _ => c + 1))]),
   .logA ⟨none, .fn (fun c _ _ => toString c)⟩]

/-- C1 counterexample: c1List has no top-level assign action, so the claim
says the log value is computed against the input context 0 (giving "0"); the
driver instead computes it against the context 1 returned by the Pure branch,
giving "1". -/
theorem c1_counterexample :
    c1List.filter (fun a => typeOf a == actionTypes.assign) = [] ∧
    (resolveActions 3 testMachine none 0 testEvent c1List).map
      (fun r => (logValues r.1, r.2)) = some (["1"], 1) ∧
    (["1"] : List String) ≠ [toString (0 : Nat)] :=
  ⟨rfl, rfl, by decide⟩

/-- C2 (amended): the context is replaced at most once per call by the
merged effect of the top-level assign actions, and additionally replaced by
the context returned from each Choose and Pure entry; consequently on a list
without Choose and Pure actions the returned context is exactly the merged
assign fold of the input context — the input context itself when there are no
assigns. -/
theorem c2_context_replaced_once {C S X : Type} (fuel : Nat) (machine : Machine C S X)
    (currentState : Option S) (c : C) (_event : SCXMLEvent)
    (L : List (ActionObject C S X))
    (hL : ∀ a ∈ L, isChooseOrPure a = false) :
    ∃ out, resolveActions (fuel + 1) machine currentState c _event L =
      some (out,
        if (L.filter (fun a => typeOf a == actionTypes.assign)).isEmpty then c
        else updateContext c _event
          ((L.filter (fun a => typeOf a == actionTypes.assign)).filterMap assignmentOf)
          currentState) := by
  rw [resolveActions_unfold]
  apply resolveList_ctx
  intro c₀ a ha
  have hncp := hL a (List.mem_filter.mp ha).1
  cases a with
  | raiseA ev => exact ⟨_, rfl⟩
  | sendA sa => exact ⟨_, rfl⟩
  | logA la => exact ⟨_, rfl⟩
  | assignA f => exact ⟨_, rfl⟩
  | custom t fs ex => exact ⟨_, rfl⟩
  | chooseA conds => exact absurd hncp (by simp [isChooseOrPure])
  | pureA get => exact absurd hncp (by simp [isChooseOrPure])

/-- Witness for C2: on a list with one assign and one raise the call returns
the once-replaced context 2 = 1 + 1. -/
theorem c2_context_replaced_once_witness :
    (resolveActions (0 + 1) testMachine none 1 testEvent
      [ActionObject.assignA (fun c _ _ => c + 1), .raiseA (.str "GO")]).map Prod.snd =
      some 2 := by
  obtain ⟨out, h⟩ := c2_context_replaced_once 0 testMachine none 1 testEvent
    [ActionObject.assignA (fun c _ _ => c + 1), .raiseA (.str "GO")] (by decide)
  rw [h]
  rfl

/-- C4: the resolved output preserves the input order with splicing: a call
resolves the non-assign entries in their input order (the assign entries are
consumed into the context and contribute no output entry); the threaded loop
maps concatenation of inputs to concatenation of outputs in order; and a
Choose or Pure entry contributes, in place, exactly the resolved output of
its selected or generated branch, which is itself a full (order preserving)
recursive resolution. -/
theorem c4_order_preservation {C S X : Type} :
    (∀ (fuel : Nat) (machine : Machine C S X) (currentState : Option S) (c : C)
       (_event : SCXMLEvent) (L : List (ActionObject C S X)),
       resolveActions (fuel + 1) machine currentState c _event L =
         resolveList
           (resolveOne machine currentState _event
             (fun c₀ acts => resolveActions fuel machine currentState c₀ _event acts))
           (if (L.filter (fun a => typeOf a == actionTypes.assign)).isEmpty then c
            else updateContext c _event
              ((L.filter (fun a => typeOf a == actionTypes.assign)).filterMap assignmentOf)
              currentState)
           (L.filter (fun a => !(typeOf a == actionTypes.assign)))) ∧
    (∀ (step : C → ActionObject C S X → Option (List (ResolvedAction C S X) × C))
       (L₁ L₂ : List (ActionObject C S X)) (c : C),
       resolveList step c (L₁ ++ L₂) =
         match resolveList step c L₁ with
         | none => none
         | some (out₁, c₁) =>
           match resolveList step c₁ L₂ with
           | none => none
           | some (out₂, c₂) => some (out₁ ++ out₂, c₂)) ∧
    (∀ (machine : Machine C S X) (currentState : Option S) (_event : SCXMLEvent)
       (recurse : C → List (ActionObject C S X) → Option (List (ResolvedAction C S X) × C))
       (ctx : C) (conds : List (Option (Cond C S) × List (RawAction C S X))),
       resolveOne machine currentState _event recurse ctx (.chooseA conds) =
         match conds.find?
             (fun condition => evalGuardRef machine condition.1 ctx _event currentState) with
         | none => some ([], ctx)
         | some condition => recurse ctx (toActionObjects machine.actions condition.2)) ∧
    (∀ (machine : Machine C S X) (currentState : Option S) (_event : SCXMLEvent)
       (recurse : C → List (ActionObject C S X) → Option (List (ResolvedAction C S X) × C))
       (ctx : C) (get : C → EventObject → Option (List (RawAction C S X))),
       resolveOne machine currentState _event recurse ctx (.pureA get) =
         match get ctx _event.data with
         | none => some ([], ctx)
         | some matched => recurse ctx (toActionObjects machine.actions matched)) :=
  ⟨fun fuel machine currentState c _event L =>
      resolveActions_unfold fuel machine currentState c _event L,
   fun step L₁ L₂ c => resolveList_append step L₁ L₂ c,
   fun _ _ _ _ _ _ => rfl,
   fun _ _ _ _ _ _ => rfl⟩

/-- C8: Choose evaluates the branch guards in declared order against the
threaded context, the event and the current state; a branch without a guard
always matches; exactly the first matching branch has its action list
canonicalized and recursively resolved in place; and with no matching branch
the Choose contributes zero resolved actions and leaves the context exactly
as it was on entry. -/
theorem c8_choose_first_match {C S X : Type} (machine : Machine C S X)
    (currentState : Option S) (_event : SCXMLEvent)
    (recurse : C → List (ActionObject C S X) → Option (List (ResolvedAction C S X) × C))
    (ctx : C) :
    (∀ (acts : List (RawAction C S X))
       (post : List (Option (Cond C S) × List (RawAction C S X))),
       resolveOne machine currentState _event recurse ctx
           (.chooseA ((none, acts) :: post)) =
         recurse ctx (toActionObjects machine.actions acts)) ∧
    (∀ (pre : List (Option (Cond C S) × List (RawAction C S X)))
       (b : Option (Cond C S) × List (RawAction C S X))
       (post : List (Option (Cond C S) × List (RawAction C S X))),
       (∀ cd ∈ pre, evalGuardRef machine cd.1 ctx _event currentState = false) →
       evalGuardRef machine b.1 ctx _event currentState = true →
       resolveOne machine currentState _event recurse ctx
           (.chooseA (pre ++ b :: post)) =
         recurse ctx (toActionObjects machine.actions b.2)) ∧
    (∀ (conds : List (Option (Cond C S) × List (RawAction C S X))),
       (∀ cd ∈ conds, evalGuardRef machine cd.1 ctx _event currentState = false) →
       resolveOne machine currentState _event recurse ctx (.chooseA conds) =
         some ([], ctx)) := by
  refine ⟨fun acts post => rfl, ?_, ?_⟩
  · intro pre b post
    induction pre with
    | nil =>
      intro _ hb
      simp only [List.nil_append, resolveOne, List.find?, hb]
    | cons cd rest ih =>
      intro hpre hb
      have hcd := hpre cd (List.mem_cons_self cd rest)
      have hrec := ih (fun cd' h => hpre cd' (List.mem_cons_of_mem cd h)) hb
      simp only [resolveOne] at hrec
      simp only [List.cons_append, resolveOne, List.find?, hcd]
      exact hrec
  · intro conds hconds
    have hfind : conds.find?
        (fun condition => evalGuardRef machine condition.1 ctx _event currentState) = none :=
      List.find?_eq_none.mpr (fun cd hcd => by simp [hconds cd hcd])
    simp only [resolveOne, hfind]

/-- Witness for C8: with context 3 the isEven guard of the first branch
fails, so the second, guard-less branch is selected and recursively
resolved. -/
theorem c8_choose_first_match_witness :
    resolveOne testMachine none testEvent
        (fun c₀ acts => resolveActions 1 testMachine none c₀ testEvent acts) 3
        (.chooseA [(some (.name "isEven"), [.objAct (.logA ⟨none, .str "even"⟩)]),
                   (none, [.objAct (.logA ⟨none, .str "odd"⟩)])]) =
      (fun c₀ acts => resolveActions 1 testMachine none c₀ testEvent acts) 3
        (toActionObjects testMachine.actions [.objAct (.logA ⟨none, .str "odd"⟩)]) :=
  (c8_choose_first_match testMachine none testEvent
      (fun c₀ acts => resolveActions 1 testMachine none c₀ testEvent acts) 3).2.1
    [(some (.name "isEven"), [.objAct (.logA ⟨none, .str "even"⟩)])]
    (none, [.objAct (.logA ⟨none, .str "odd"⟩)]) []
    (by decide) rfl

/-- C7: a Choose branch whose guard reference names a guard absent from the
guard registry is treated as satisfied — its guard evaluates to true and the
Choose resolves exactly as if the branch had no guard; no failure value is
produced. -/
theorem c7_unregistered_guard {C S X : Type} (machine : Machine C S X)
    (currentState : Option S) (_event : SCXMLEvent)
    (recurse : C → List (ActionObject C S X) → Option (List (ResolvedAction C S X) × C))
    (ctx : C) (g : String) (hg : machine.guards g = none) :
    evalGuardRef machine (some (.name g)) ctx _event currentState = true ∧
    ∀ (acts : List (RawAction C S X))
      (post : List (Option (Cond C S) × List (RawAction C S X))),
      resolveOne machine currentState _event recurse ctx
          (.chooseA ((some (.name g), acts) :: post)) =
        resolveOne machine currentState _event recurse ctx
          (.chooseA ((none, acts) :: post)) := by
  have h1 : evalGuardRef machine (some (.name g)) ctx _event currentState = true := by
    simp [evalGuardRef, hg]
  refine ⟨h1, ?_⟩
  intro acts post
  simp only [resolveOne, List.find?, evalGuardRef, hg]

/-- Witness for C7: the name "missing" is not registered on testMachine and
its branch behaves as an unguarded branch. -/
theorem c7_unregistered_guard_witness :
    evalGuardRef testMachine (some (.name "missing")) 0 testEvent none = true ∧
    resolveOne testMachine none testEvent
        (fun c₀ acts => resolveActions 1 testMachine none c₀ testEvent acts) 0
        (.chooseA [(some (.name "missing"), [.objAct (.logA ⟨none, .str "hit"⟩)])]) =
      resolveOne testMachine none testEvent
        (fun c₀ acts => resolveActions 1 testMachine none c₀ testEvent acts) 0
        (.chooseA [(none, [.objAct (.logA ⟨none, .str "hit"⟩)])]) :=
  ⟨(c7_unregistered_guard testMachine none testEvent
      (fun c₀ acts => resolveActions 1 testMachine none c₀ testEvent acts) 0 "missing" rfl).1,
   (c7_unregistered_guard testMachine none testEvent
      (fun c₀ acts => resolveActions 1 testMachine none c₀ testEvent acts) 0 "missing" rfl).2
     [.objAct (.logA ⟨none, .str "hit"⟩)] []⟩

/-- C10 (amended): provided the action registry maps no action type to an
assign-typed registered object, the resolved output of resolveActions never
contains an action whose type is the assign action type — every assign,
top-level or generated inside a Choose/Pure branch at any depth, is consumed
into the returned context.  (Without the proviso the default branch of the
dispatch re-canonicalizes a custom action against the registry and can
thereby return an assign-typed object, see the counterexample.) -/
theorem c10_no_assign_in_output {C S X : Type} (machine : Machine C S X)
    (hreg : ∀ t a, machine.actions t = some (.objE a) → typeOf a ≠ actionTypes.assign) :
    ∀ (fuel : Nat) (currentState : Option S) (c : C) (_event : SCXMLEvent)
      (L : List (ActionObject C S X)) (out : List (ResolvedAction C S X)) (c' : C),
      resolveActions fuel machine currentState c _event L = some (out, c') →
      ∀ r ∈ out, resolvedTypeOf r ≠ actionTypes.assign := by
  intro fuel
  induction fuel with
  | zero =>
    intro _ _ _ _ _ _ h
    exact absurd h (by simp [resolveActions])
  | succ f ih =>
    intro currentState c _event L out c' h
    rw [resolveActions_unfold] at h
    refine resolveList_mem _ _ _ _ _ ?_ h
    intro c₀ a ha out₀ c₁ hstep r hr
    have hb := (List.mem_filter.mp ha).2
    have hne : typeOf a ≠ actionTypes.assign := by
      intro hEq
      rw [hEq] at hb
      simp at hb
    cases a with
    | raiseA ev =>
      simp only [resolveOne, Option.some.injEq, Prod.mk.injEq] at hstep
      rw [← hstep.1] at hr
      simp only [List.mem_singleton] at hr
      subst hr
      simp only [resolvedTypeOf, resolveRaise]
      decide
    | sendA sa =>
      simp only [resolveOne, Option.some.injEq, Prod.mk.injEq] at hstep
      rw [← hstep.1] at hr
      simp only [List.mem_singleton] at hr
      subst hr
      simp only [resolvedTypeOf, resolveSend]
      decide
    | logA la =>
      simp only [resolveOne, Option.some.injEq, Prod.mk.injEq] at hstep
      rw [← hstep.1] at hr
      simp only [List.mem_singleton] at hr
      subst hr
      simp only [resolvedTypeOf, resolveLog]
      decide
    | assignA f => exact absurd rfl hne
    | chooseA conds =>
      simp only [resolveOne] at hstep
      cases hfind : conds.find?
          (fun condition => evalGuardRef machine condition.1 c₀ _event currentState) with
      | none =>
        rw [hfind] at hstep
        simp only [Option.some.injEq, Prod.mk.injEq] at hstep
        rw [← hstep.1] at hr
        exact absurd hr (List.not_mem_nil r)
      | some condition =>
        rw [hfind] at hstep
        exact ih currentState c₀ _event _ out₀ c₁ hstep r hr
    | pureA get =>
      simp only [resolveOne] at hstep
      cases hget : get c₀ _event.data with
      | none =>
        rw [hget] at hstep
        simp only [Option.some.injEq, Prod.mk.injEq] at hstep
        rw [← hstep.1] at hr
        exact absurd hr (List.not_mem_nil r)
      | some matched =>
        rw [hget] at hstep
        exact ih currentState c₀ _event _ out₀ c₁ hstep r hr
    | custom t fs ex =>
      simp only [resolveOne, Option.some.injEq, Prod.mk.injEq] at hstep
      rw [← hstep.1] at hr
      simp only [List.mem_singleton] at hr
      subst hr
      simp only [resolvedTypeOf, toActionObject]
      cases hact : machine.actions (typeOf (ActionObject.custom t fs ex : ActionObject C S X)) with
      | none => exact hne
      | some entry =>
        cases entry with
        | execE x => rw [typeOf_attachExec]; exact hne
        | objE rA => rw [typeOf_mergeRegistered]; exact hreg _ rA hact

/-- Witness for C10: on testMachine (whose registry has no object entry) a
list with one assign and one raise yields an output whose single entry is the
resolved raise, not assign-typed. -/
theorem c10_no_assign_in_output_witness :
    resolvedTypeOf (ResolvedAction.raiseR (resolveRaise (.str "GO")) : ResolvedAction Nat Unit Unit) ≠
      actionTypes.assign :=
  c10_no_assign_in_output testMachine (fun _ _ h => Option.noConfusion h)
    1 none 0 testEvent [.assignA (fun c _ _ => c + 1), .raiseA (.str "GO")]
    [.raiseR (resolveRaise (.str "GO"))] 1 rfl _ (List.mem_singleton.mpr rfl)

/-- The machine of the C10 counterexample: the action registry maps the
custom type "foo" to an assign-typed registered object. -/
def c10Machine : Machine Nat Unit Unit :=
  { id := "m2"
    actions := fun s =>
      if s = "foo" then some (.objE (.assignA (fun c _ _ => c + 7))) else none
    guards := fun _ => none
    delays := fun _ => none }

/-- C10 counterexample: resolving the single custom action of type "foo" on
c10Machine re-canonicalizes it in the default branch against the registry,
and the output list contains exactly one action whose type is the assign
action type — contradicting the claim that no output action is
assign-typed. -/
theorem c10_counterexample :
    (resolveActions 1 c10Machine none 0 testEvent [.custom "foo" [] none]).map
      (fun r => r.1.map resolvedTypeOf) = some [actionTypes.assign] := rfl

/-- The action list of the C2 counterexample: a single Pure action whose
branch assigns. -/
def c2List : List (ActionObject Nat Unit Unit) :=
  [.pureA (fun _ _ => some [.objAct (.assignA (fun c _ _ => c + 1))])]

/-- C2 counterexample: c2List has no top-level assign action, so under the
claim the context is never replaced and the input context 0 is returned; the
driver instead returns the context 1 produced inside the Pure branch. -/
theorem c2_counterexample :
    c2List.filter (fun a => typeOf a == actionTypes.assign) = [] ∧
    (resolveActions 2 testMachine none 0 testEvent c2List).map Prod.snd = some 1 ∧
    (1 : Nat) ≠ 0 :=
  ⟨rfl, rfl, by decide⟩

/-- C6: the delay resolution table of resolveSend: a literal number passes
through unchanged; a named string found in the delay registry yields the
registry value when it is a number and the call result when it is a function;
a named string absent from the registry yields no delay, and outside
production builds a diagnostic naming the missing delay and the machine id is
emitted while the resolved action is the same either way; a function delay
yields its call result. -/
theorem c6_delay_resolution {C S X : Type} (machine : Machine C S X) (a : SendAction C)
    (ctx : C) (_event : SCXMLEvent) :
    (∀ n, a.delay = some (.num n) →
       (resolveSend a ctx _event machine.delays).delay = some n) ∧
    (∀ s n, a.delay = some (.str s) → machine.delays s = some (.num n) →
       (resolveSend a ctx _event machine.delays).delay = some n) ∧
    (∀ s f, a.delay = some (.str s) → machine.delays s = some (.fn f) →
       (resolveSend a ctx _event machine.delays).delay = some (f ctx _event.data _event)) ∧
    (∀ s, a.delay = some (.str s) → machine.delays s = none →
       (resolveSend a ctx _event machine.delays).delay = none ∧
       sendDelayWarning false machine.id a (resolveSend a ctx _event machine.delays) =
         some ("No delay reference for delay expression " ++ s ++
           " was found on machine " ++ machine.id) ∧
       sendDelayWarning true machine.id a (resolveSend a ctx _event machine.delays) =
         none) ∧
    (∀ f, a.delay = some (.fn f) →
       (resolveSend a ctx _event machine.delays).delay = some (f ctx _event.data _event)) := by
  refine ⟨?_, ?_, ?_, ?_, ?_⟩
  · intro n h
    simp [resolveSend, h]
  · intro s n h hreg
    simp [resolveSend, h, hreg]
  · intro s f h hreg
    simp [resolveSend, h, hreg]
  · intro s h hreg
    refine ⟨by simp [resolveSend, h, hreg], ?_, by simp [sendDelayWarning]⟩
    have hd : (resolveSend a ctx _event machine.delays).delay = none := by
      simp [resolveSend, h, hreg]
    simp [sendDelayWarning, h, hd]
  · intro f h
    simp [resolveSend, h]

/-- The declared send action of the C6 witness: its delay names "NOPE",
which is absent from the delay registry of testMachine. -/
def c6Send : SendAction Nat :=
  send (.raw (.str "PING")) (some ⟨none, some (.str "NOPE"), none⟩)

/-- Witness for C6: the missing named delay resolves to no delay, with the
diagnostic emitted exactly outside production mode. -/
theorem c6_delay_resolution_witness :
    (resolveSend c6Send 0 testEvent testMachine.delays).delay = none ∧
    sendDelayWarning false testMachine.id c6Send
        (resolveSend c6Send 0 testEvent testMachine.delays) =
      some ("No delay reference for delay expression " ++ "NOPE" ++
        " was found on machine " ++ testMachine.id) ∧
    sendDelayWarning true testMachine.id c6Send
        (resolveSend c6Send 0 testEvent testMachine.delays) = none :=
  (c6_delay_resolution testMachine c6Send 0 testEvent).2.2.2.1 "NOPE" rfl rfl

/-- C9: the builder equivalences: sendParent of an event resolves exactly as
send of that event targeted at the symbolic parent; forwardTo of a target
resolves exactly as send of the event-forwarding expression targeted at that
target; and respond resolves its target to the origin field of the triggering
event envelope at resolve time. -/
theorem c9_builder_equivalences {C : Type} :
    (∀ (e : SendEventInput C) (ctx : C) (_event : SCXMLEvent)
       (delaysMap : String → Option (DelayRegEntry C)),
       resolveSend (sendParent e none) ctx _event delaysMap =
         resolveSend (send e (some ⟨some (.target SpecialTargets.Parent), none, none⟩))
           ctx _event delaysMap) ∧
    (∀ (t : TargetField C) (ctx : C) (_event : SCXMLEvent)
       (delaysMap : String → Option (DelayRegEntry C)),
       resolveSend (forwardTo t none) ctx _event delaysMap =
         resolveSend (send (.fn "" (fun _ event _ => event)) (some ⟨some t, none, none⟩))
           ctx _event delaysMap) ∧
    (∀ (e : SendEventInput C) (ctx : C) (_event : SCXMLEvent)
       (delaysMap : String → Option (DelayRegEntry C)),
       (resolveSend (respond e none) ctx _event delaysMap).«to» = _event.origin) :=
  ⟨fun _ _ _ _ => rfl, fun _ _ _ _ => rfl, fun _ _ _ _ => rfl⟩

/-- C5: for an object action with a type field: an executable registry entry
is attached as exec with every other field of the action kept; an object
registry entry is merged with the action fields overriding the registry
fields except that the type property of the result is the type property of
the registry entry; no registry entry passes the action through with its
identity and every enumerable property unchanged. -/
theorem c5_registry_merge {X : Type} (fresh : Nat)
    (actionMap : String → Option (JsModel.JsRegEntry X)) (a : JsModel.JsObj X)
    (t : String) (ht : JsModel.getProp a "type" = some (.str t)) :
    (∀ x, actionMap t = some (.execE x) →
       JsModel.getProp (JsModel.toActionObject fresh actionMap (.objA a)).result "exec" =
         some (.exec x) ∧
       ∀ k, k ≠ "exec" →
         JsModel.getProp (JsModel.toActionObject fresh actionMap (.objA a)).result k =
           JsModel.getProp a k) ∧
    (∀ r, actionMap t = some (.objE r) →
       JsModel.getProp (JsModel.toActionObject fresh actionMap (.objA a)).result "type" =
         some ((JsModel.getProp r "type").getD .undef) ∧
       ∀ k, k ≠ "type" →
         JsModel.getProp (JsModel.toActionObject fresh actionMap (.objA a)).result k =
           (match JsModel.getProp a k with
            | some v => some v
            | none => JsModel.getProp r k)) ∧
    (actionMap t = none →
       (JsModel.toActionObject fresh actionMap (.objA a)).result.oid = a.oid ∧
       ∀ k, JsModel.getProp (JsModel.toActionObject fresh actionMap (.objA a)).result k =
         JsModel.getProp a k) := by
  have ht' : a.props "type" = some (JsModel.PropVal.str t) := ht
  refine ⟨?_, ?_, ?_⟩
  · intro x hx
    constructor
    · simp [JsModel.toActionObject, ht', hx, JsModel.getProp, JsModel.setProp,
        JsModel.defineToString]
    · intro k hk
      simp [JsModel.toActionObject, ht', hx, JsModel.getProp, JsModel.setProp,
        JsModel.defineToString, hk]
  · intro r hr
    constructor
    · simp [JsModel.toActionObject, ht', hr, JsModel.getProp, JsModel.setProp,
        JsModel.defineToString]
    · intro k hk
      simp [JsModel.toActionObject, ht', hr, JsModel.getProp, JsModel.setProp,
        JsModel.mergeProps, JsModel.defineToString, hk]
  · intro hnone
    constructor
    · simp [JsModel.toActionObject, ht', hnone, JsModel.defineToString, JsModel.getProp]
    · intro k
      simp [JsModel.toActionObject, ht', hnone, JsModel.getProp, JsModel.defineToString]

/-- The object action of the C5 witness: type "foo" and a field amt = 2. -/
def c5Obj : JsModel.JsObj Nat :=
  ⟨5, fun k => if k = "type" then some (.str "foo")
      else if k = "amt" then some (.num 2) else none, false⟩

/-- The registered object of the C5 witness: type "bar", amt = 1 and an
extra field the action does not carry. -/
def c5Reg : JsModel.JsObj Nat :=
  ⟨9, fun k => if k = "type" then some (.str "bar")
      else if k = "amt" then some (.num 1)
      else if k = "extra" then some (.num 3) else none, false⟩

/-- The action registry of the C5 witness, mapping "foo" to c5Reg. -/
def c5Map : String → Option (JsModel.JsRegEntry Nat) :=
  fun s => if s = "foo" then some (.objE c5Reg) else none

/-- Witness for C5: merging c5Obj against its registered entry keeps the
registry type "bar", lets the action amt = 2 override the registry amt = 1,
and inherits the registry-only field extra = 3. -/
theorem c5_registry_merge_witness :
    JsModel.getProp (JsModel.toActionObject 99 c5Map (.objA c5Obj)).result "type" =
      some (.str "bar") ∧
    JsModel.getProp (JsModel.toActionObject 99 c5Map (.objA c5Obj)).result "amt" =
      some (.num 2) ∧
    JsModel.getProp (JsModel.toActionObject 99 c5Map (.objA c5Obj)).result "extra" =
      some (.num 3) :=
  ⟨(((c5_registry_merge 99 c5Map c5Obj "foo" rfl).2.1 c5Reg rfl).1).trans rfl,
   ((((c5_registry_merge 99 c5Map c5Obj "foo" rfl).2.1 c5Reg rfl).2 "amt"
      (by decide)).trans rfl),
   ((((c5_registry_merge 99 c5Map c5Obj "foo" rfl).2.1 c5Reg rfl).2 "extra"
      (by decide)).trans rfl)⟩

/-- C3 (amended): canonicalization constructs a new object for function
inputs, for string inputs with no or an executable registry entry, and for
object inputs with a registry entry; but an object input with no registry
entry is returned by reference — the same object, with the non-enumerable
toString property defined on it in place (its enumerable properties
unchanged) — and a string input whose registry entry is an object returns
that registry object mutated the same way.  Object inputs with a registry
entry are left unmutated. -/
theorem c3_canonicalization_allocation {X : Type} (fresh : Nat)
    (actionMap : String → Option (JsModel.JsRegEntry X)) :
    (∀ (name : String) (x : X),
       (JsModel.toActionObject fresh actionMap (.fnA name x)).result.oid = fresh ∧
       (JsModel.toActionObject fresh actionMap (.fnA name x)).inputAfter = none) ∧
    (∀ s, actionMap s = none →
       (JsModel.toActionObject fresh actionMap (.strA s)).result.oid = fresh) ∧
    (∀ s x, actionMap s = some (.execE x) →
       (JsModel.toActionObject fresh actionMap (.strA s)).result.oid = fresh) ∧
    (∀ s r, actionMap s = some (.objE r) →
       (JsModel.toActionObject fresh actionMap (.strA s)).result =
         JsModel.defineToString r) ∧
    (∀ (a : JsModel.JsObj X) t, JsModel.getProp a "type" = some (.str t) →
       (∀ x, actionMap t = some (.execE x) →
          (JsModel.toActionObject fresh actionMap (.objA a)).result.oid = fresh ∧
          (JsModel.toActionObject fresh actionMap (.objA a)).inputAfter = some a) ∧
       (∀ r, actionMap t = some (.objE r) →
          (JsModel.toActionObject fresh actionMap (.objA a)).result.oid = fresh ∧
          (JsModel.toActionObject fresh actionMap (.objA a)).inputAfter = some a) ∧
       (actionMap t = none →
          (JsModel.toActionObject fresh actionMap (.objA a)).result.oid = a.oid ∧
          (JsModel.toActionObject fresh actionMap (.objA a)).inputAfter =
            some (JsModel.defineToString a) ∧
          (JsModel.toActionObject fresh actionMap (.objA a)).result.props = a.props)) := by
  refine ⟨fun name x => ⟨rfl, rfl⟩, ?_, ?_, ?_, ?_⟩
  · intro s h
    simp [JsModel.toActionObject, h, JsModel.defineToString]
  · intro s x h
    simp [JsModel.toActionObject, h, JsModel.defineToString]
  · intro s r h
    simp [JsModel.toActionObject, h]
  · intro a t ht
    have ht' : a.props "type" = some (JsModel.PropVal.str t) := ht
    refine ⟨?_, ?_, ?_⟩
    · intro x hx
      constructor
      · simp [JsModel.toActionObject, JsModel.getProp, ht', hx, JsModel.defineToString]
      · simp [JsModel.toActionObject, JsModel.getProp, ht', hx, JsModel.defineToString]
    · intro r hr
      constructor
      · simp [JsModel.toActionObject, JsModel.getProp, ht', hr, JsModel.defineToString]
      · simp [JsModel.toActionObject, JsModel.getProp, ht', hr, JsModel.defineToString]
    · intro hnone
      refine ⟨?_, ?_, ?_⟩
      · simp [JsModel.toActionObject, JsModel.getProp, ht', hnone, JsModel.defineToString]
      · simp [JsModel.toActionObject, JsModel.getProp, ht', hnone, JsModel.defineToString]
      · simp [JsModel.toActionObject, JsModel.getProp, ht', hnone, JsModel.defineToString]

/-- The object action of the C3 counterexample and witness: identity 7, a
type "noSuch" absent from the registry, and no toString own property. -/
def c3Obj : JsModel.JsObj Nat :=
  ⟨7, fun k => if k = "type" then some (.str "noSuch") else none, false⟩

/-- Witness for C3: a function action is newly allocated, and the
pass-through object keeps its identity. -/
theorem c3_canonicalization_allocation_witness :
    (JsModel.toActionObject 42 (fun _ => (none : Option (JsModel.JsRegEntry Nat)))
        (.fnA "doIt" 5)).result.oid = 42 ∧
    (JsModel.toActionObject 42 (fun _ => (none : Option (JsModel.JsRegEntry Nat)))
        (.objA c3Obj)).result.oid = c3Obj.oid :=
  ⟨((c3_canonicalization_allocation 42 (fun _ => none)).1 "doIt" 5).1,
   (((c3_canonicalization_allocation 42 (fun _ => none)).2.2.2.2 c3Obj "noSuch" rfl).2.2
      rfl).1⟩

/-- C3 counterexample: with an empty registry, canonicalizing the object
action c3Obj does not return a newly constructed object — it returns the very
same object (identity 7, not the fresh identity 99) — and it mutates the
input: after the call the input object owns a toString property it did not
own before the call. -/
theorem c3_counterexample :
    (JsModel.toActionObject 99 (fun _ => (none : Option (JsModel.JsRegEntry Nat)))
        (.objA c3Obj)).result.oid = c3Obj.oid ∧
    c3Obj.oid ≠ 99 ∧
    (JsModel.toActionObject 99 (fun _ => (none : Option (JsModel.JsRegEntry Nat)))
        (.objA c3Obj)).inputAfter.map JsModel.JsObj.hasToString = some true ∧
    c3Obj.hasToString = false :=
  ⟨rfl, by decide, rfl, rfl⟩

end XState
